import Mathlib

/-
  Verification of the `jass` component-wise slice sampler.

  Shallow embedding of `src/jass/samplers.py` (class `ComponentWiseSlice`)
  and `src/jass/mcmc.py` (function `run`).

  Modelling choices:
  * Coordinates and random draws are rationals (ℚ), the idealisation of the
    Python floats.
  * Log-density values may be non-finite: `LFloat` is a finite rational,
    negative infinity, or NaN, and `LFloat.gt` mirrors the IEEE-754 `>`
    comparison used by Python (any comparison involving NaN is false, and
    `-inf > y` is false).
  * The pseudo-random source `rd : ℕ → ℚ` is an abstract stream of draws,
    consumed in program order through a counter `k`; `rd.exponential()` and
    `rd.uniform()` each take the next element of the stream.
  * The unbounded `while` loops (step-out and shrinkage) are given explicit
    fuel; `none` models non-termination within the allotted fuel.
  * The generator `_sample` is modelled by its per-pull step `samplePull` on
    an explicit state `GenState` (widths, current point, cached log-density,
    dimension cursor, draw counter), and the generator `sample` that wraps it
    (lazy default-width resolution, tuning sweeps, then emission) is modelled
    by `ComponentWiseSlice.sample`, evaluated at a requested number of pulls.
    Python's `zip(range(nsteps), gen)` never advances the generator when
    `nsteps = 0`, so in that case the generator body (width defaulting,
    initial log-density evaluation, tuning) never runs.
  * Log-density evaluations and generator pulls are counted explicitly.
-/

/-- Float-like log-density value: finite rational, negative infinity, or NaN. -/
inductive LFloat where
  | flt : ℚ → LFloat
  | negInf : LFloat
  | nan : LFloat
deriving DecidableEq

namespace LFloat

/-- IEEE-754 style strict `>` on log-density values, as used by Python's
`logprob(x) > logy`: any comparison involving NaN is false, and negative
infinity is greater than nothing. -/
def gt : LFloat → LFloat → Bool
  | flt a, flt b => decide (b < a)
  | flt _, negInf => true
  | flt _, nan => false
  | negInf, _ => false
  | nan, _ => false

/-- Subtract a finite rational from a log-density value (float semantics:
`-inf - q = -inf`, `nan - q = nan`). -/
def subQ : LFloat → ℚ → LFloat
  | flt a, q => flt (a - q)
  | negInf, _ => negInf
  | nan, _ => nan

end LFloat

/-- `np.abs` on a rational. -/
def qabs (q : ℚ) : ℚ := if q < 0 then -q else q

/-- The slice height of one elementary step: `logy = x_prob - e - 1e-9`
(samplers.py line 118), with `e` the exponential draw. -/
def sliceHeight (xProb : LFloat) (e : ℚ) : LFloat :=
  xProb.subQ (e + 1 / 1000000000)

/-- Left end of the initial trial interval: `a = x[d] - u * width`
(samplers.py line 120), with `u` the uniform draw. -/
def intervalA (xd u width : ℚ) : ℚ := xd - u * width

/-- Right end of the initial trial interval: `b = a + width`
(samplers.py line 121). -/
def intervalB (xd u width : ℚ) : ℚ := intervalA xd u width + width

/-- One step-out loop of `_sample` (samplers.py lines 130-138):
starting from position `pos`, repeatedly move by `step` (`-width` for the
left loop, `+width` for the right loop) while the log-density at the current
point, with coordinate `d` set to the position, exceeds `logy`.  Returns the
first position failing the test together with the number of log-density
evaluations made, accumulated onto `evals`; `none` when fuel runs out. -/
def stepOut (f : List ℚ → LFloat) (logy : LFloat) (x : List ℚ) (d : ℕ)
    (step : ℚ) : ℕ → ℚ → ℕ → Option (ℚ × ℕ)
  | 0, _, _ => none
  | fuel + 1, pos, evals =>
    if (f (x.set d pos)).gt logy then
      stepOut f logy x d step fuel (pos + step) (evals + 1)
    else
      some (pos, evals + 1)

/-- Result of the shrinkage loop: accepted coordinate value, its log-density
(the new cached `x_prob`), the advanced draw counter, and the accumulated
evaluation count. -/
structure ShrinkOut where
  cand : ℚ
  prob : LFloat
  k : ℕ
  evals : ℕ
deriving DecidableEq

/-- The shrinkage rejection loop of `_sample` (samplers.py lines 140-147):
draw `v` uniform, candidate `a + v * (b - a)`, accept when its log-density
exceeds `logy`; otherwise shrink toward the side of the pre-step coordinate
value `xp` and repeat. -/
def shrink (f : List ℚ → LFloat) (logy : LFloat) (x : List ℚ) (d : ℕ)
    (xp : ℚ) (rd : ℕ → ℚ) : ℕ → ℚ → ℚ → ℕ → ℕ → Option ShrinkOut
  | 0, _, _, _, _ => none
  | fuel + 1, a, b, k, evals =>
    let cand := a + rd k * (b - a)
    let p := f (x.set d cand)
    if p.gt logy then
      some ⟨cand, p, k + 1, evals + 1⟩
    else if cand < xp then
      shrink f logy x d xp rd fuel cand b (k + 1) (evals + 1)
    else
      shrink f logy x d xp rd fuel a cand (k + 1) (evals + 1)

/-- Result of one elementary step: new state vector, new cached log-density,
advanced draw counter, log-density evaluations made. -/
structure ElemOut where
  x : List ℚ
  xProb : LFloat
  k : ℕ
  evals : ℕ
deriving DecidableEq

/-- One elementary step of `_sample` for dimension `d` (samplers.py lines
112-149): draw the slice height and the trial interval, step out on both
sides, then shrink until acceptance.  The emitted snapshot is the state with
coordinate `d` set to the accepted candidate. -/
def elemStep (f : List ℚ → LFloat) (rd : ℕ → ℚ) (width : ℚ) (d : ℕ)
    (fuel : ℕ) (x : List ℚ) (xProb : LFloat) (k : ℕ) : Option ElemOut :=
  let logy := sliceHeight xProb (rd k)
  let xd := x.getD d 0
  let a := intervalA xd (rd (k + 1)) width
  let b := intervalB xd (rd (k + 1)) width
  match stepOut f logy x d (-width) fuel a 0 with
  | none => none
  | some (a2, n1) =>
    match stepOut f logy x d width fuel b 0 with
    | none => none
    | some (b2, n2) =>
      match shrink f logy x d xd rd fuel a2 b2 (k + 2) 0 with
      | none => none
      | some s => some ⟨x.set d s.cand, s.prob, s.k, n1 + n2 + s.evals⟩

/-- Generator-local state of `_sample`: the instance widths `self.widths`,
the current point `x`, the cached log-density `x_prob`, the dimension cursor
`d` (Python's inner `for d in range(ndims)` inside `while True`), and the
position `k` in the random stream. -/
structure GenState where
  ws : List ℚ
  x : List ℚ
  xProb : LFloat
  d : ℕ
  k : ℕ
deriving DecidableEq

/-- Result of one pull from the `_sample` generator: the yielded snapshot,
the updated generator state, and the log-density evaluations made. -/
structure PullOut where
  cur : List ℚ
  g : GenState
  evals : ℕ
deriving DecidableEq

/-- One pull from the `_sample` generator: run the elementary step at the
current cursor with the current width for that dimension, yield a copy of
the updated state, and advance the cursor cyclically.  A 0-dimensional state
makes the generator spin forever without yielding (`for d in range(0)`
inside `while True`), modelled as `none`. -/
def samplePull (f : List ℚ → LFloat) (rd : ℕ → ℚ) (fuel : ℕ)
    (g : GenState) : Option PullOut :=
  if g.x.length = 0 then none
  else
    match elemStep f rd (g.ws.getD g.d 0) g.d fuel g.x g.xProb g.k with
    | none => none
    | some r => some ⟨r.x, ⟨g.ws, r.x, r.xProb, (g.d + 1) % g.x.length, r.k⟩, r.evals⟩

/-- Result of the tuning loop: the previous snapshot `prev`, the generator
state (including tuned widths), and the accumulated evaluation and pull
counts. -/
structure TuneOut where
  prev : List ℚ
  g : GenState
  evals : ℕ
  pulls : ℕ
deriving DecidableEq

/-- The exponential-moving-average width update of the tuning phase
(samplers.py line 93): `widths[d] = 0.1 * delta + 0.9 * widths[d]`. -/
def emaUpdate (ws : List ℚ) (d : ℕ) (delta : ℚ) : List ℚ :=
  ws.set d (1 / 10 * delta + 9 / 10 * ws.getD d 0)

/-- The inner tuning loop over the dimensions of one sweep (samplers.py
lines 88-96): pull one state from `_sample`, update the width of dimension
`d` from the absolute coordinate difference against the previous state, and
continue with the pulled state as the new previous state. -/
def tuneSweep (f : List ℚ → LFloat) (rd : ℕ → ℚ) (fuel : ℕ) :
    List ℕ → List ℚ → GenState → ℕ → ℕ → Option TuneOut
  | [], prev, g, evals, pulls => some ⟨prev, g, evals, pulls⟩
  | d :: rest, prev, g, evals, pulls =>
    match samplePull f rd fuel g with
    | none => none
    | some r =>
      let delta := qabs (r.cur.getD d 0 - prev.getD d 0)
      tuneSweep f rd fuel rest r.cur
        { r.g with ws := emaUpdate r.g.ws d delta } (evals + r.evals) (pulls + 1)

/-- The outer tuning loop (samplers.py lines 87-96): `sweeps` full sweeps,
each over dimensions `0, …, D-1`. -/
def tunePhase (f : List ℚ → LFloat) (rd : ℕ → ℚ) (fuel : ℕ) (D : ℕ) :
    ℕ → List ℚ → GenState → ℕ → ℕ → Option TuneOut
  | 0, prev, g, evals, pulls => some ⟨prev, g, evals, pulls⟩
  | n + 1, prev, g, evals, pulls =>
    match tuneSweep f rd fuel (List.range D) prev g evals pulls with
    | none => none
    | some r => tunePhase f rd fuel D n r.prev r.g r.evals r.pulls

/-- Result of the emission loop: the yielded snapshots in order, the final
generator state, and the accumulated evaluation and pull counts. -/
structure EmitOut where
  outs : List (List ℚ)
  g : GenState
  evals : ℕ
  pulls : ℕ
deriving DecidableEq

/-- The emission loop of `sample` (samplers.py lines 99-100), pulled `n`
times: each pull takes the next state from `_sample` and yields it. -/
def emitPhase (f : List ℚ → LFloat) (rd : ℕ → ℚ) (fuel : ℕ) :
    ℕ → GenState → ℕ → ℕ → Option EmitOut
  | 0, g, evals, pulls => some ⟨[], g, evals, pulls⟩
  | n + 1, g, evals, pulls =>
    match samplePull f rd fuel g with
    | none => none
    | some r =>
      match emitPhase f rd fuel n r.g (evals + r.evals) (pulls + 1) with
      | none => none
      | some e => some ⟨r.cur :: e.outs, e.g, e.evals, e.pulls⟩

/-- The sampler instance: configured widths (`None` until defaulted) and the
number of tuning sweeps.  `ntune` is a Python integer and may be negative. -/
structure ComponentWiseSlice where
  widths : Option (List ℚ)
  ntune : ℤ
deriving DecidableEq

/-- Lazy width defaulting at the start of `sample` (samplers.py lines 75-77):
`None` becomes a vector of ones of the dimension of `init`. -/
def resolveWidths (w : Option (List ℚ)) (D : ℕ) : List ℚ :=
  match w with
  | none => List.replicate D 1
  | some ws => ws

/-- Result of a full call: the collected samples, the post-call sampler
instance state, the total log-density evaluation count, and the number of
generator pulls consumed by tuning and by emission. -/
structure RunOut where
  samples : List (List ℚ)
  sampler : ComponentWiseSlice
  evals : ℕ
  tunePulls : ℕ
  emitPulls : ℕ
deriving DecidableEq

/-- `ComponentWiseSlice.sample` (samplers.py lines 73-100), consumed for
`nsteps` pulls.  When `nsteps = 0` the generator body never runs (Python
generators are lazy and `zip(range(0), gen)` never advances `gen`): no
width defaulting, no tuning, no log-density evaluation.  Otherwise the
widths are resolved, `_sample` is started (evaluating the log-density once
at `init`), `ntune` sweeps of tuning run when `ntune > 0`, and `nsteps`
states are emitted.  The post-call instance keeps the (possibly tuned)
widths. -/
def ComponentWiseSlice.sample (s : ComponentWiseSlice) (f : List ℚ → LFloat)
    (init : List ℚ) (rd : ℕ → ℚ) (fuel : ℕ) (nsteps : ℕ) : Option RunOut :=
  if nsteps = 0 then some ⟨[], s, 0, 0, 0⟩
  else
    let ws0 := resolveWidths s.widths init.length
    let g0 : GenState := ⟨ws0, init, f init, 0, 0⟩
    match tunePhase f rd fuel init.length s.ntune.toNat init g0 1 0 with
    | none => none
    | some t =>
      match emitPhase f rd fuel nsteps t.g 0 0 with
      | none => none
      | some e =>
        some ⟨e.outs, ⟨some e.g.ws, s.ntune⟩, t.evals + e.evals, t.pulls, e.pulls⟩

/-- The driver `run` (mcmc.py lines 6-30): allocate an `nsteps × len(init)`
matrix and fill row `i` with the `i`-th state pulled from the sampler's
sequence; `zip(range(nsteps), …)` pulls exactly `nsteps` elements. -/
def run (sampler : ComponentWiseSlice) (f : List ℚ → LFloat) (init : List ℚ)
    (nsteps : ℕ) (rd : ℕ → ℚ) (fuel : ℕ) : Option RunOut :=
  sampler.sample f init rd fuel nsteps

/-! ### Concrete instances used to exercise the model

A bounded-support log-density, a 2-dimensional standard-normal log-density
(up to its additive constant, as allowed by the `logprob` contract), a
log-density with a NaN region, and a concrete periodic draw stream. -/

/-- Log-density of the uniform density on `[-1, 1]` in coordinate 0
(value `0` inside, `-inf` outside). -/
def fW : List ℚ → LFloat := fun v =>
  if qabs (v.getD 0 0) ≤ 1 then .flt 0 else .negInf

/-- 2-dimensional standard-normal log-density up to an additive constant:
`-(x₀² + x₁²)/2`. -/
def fN : List ℚ → LFloat := fun v =>
  .flt (-(v.getD 0 0 * v.getD 0 0 + v.getD 1 0 * v.getD 1 0) / 2)

/-- A log-density that is NaN outside `[-1, 1]` in coordinate 0. -/
def fNaN : List ℚ → LFloat := fun v =>
  if qabs (v.getD 0 0) ≤ 1 then .flt 0 else .nan

/-- A concrete draw stream with period 3: `1/2, 1/2, 1/3, …`.  Each
elementary step of the runs below consumes exactly three draws
(`e`, `u`, and one accepted shrinkage draw), so the stream stays aligned. -/
def rdW : ℕ → ℚ := fun k => if k % 3 = 2 then 1 / 3 else 1 / 2

/-- `true` when the two vectors differ in exactly one coordinate. -/
def diffOne (u v : List ℚ) : Bool :=
  ((List.range u.length).filter fun j => u.getD j 0 != v.getD j 0).length == 1

/-- `true` when every row differs from the previous row in exactly one
coordinate. -/
def pairwiseDiffOne : List (List ℚ) → Bool
  | u :: v :: rest => diffOne u v && pairwiseDiffOne (v :: rest)
  | _ => true

/-! ### Helper lemmas -/

theorem getD_set_of_ne (l : List ℚ) (i j : ℕ) (a : ℚ) (hij : i ≠ j) :
    (l.set i a).getD j 0 = l.getD j 0 := by
  simp [List.getD_eq_getElem?_getD, List.getElem?_set_ne hij]

theorem qabs_nonneg (q : ℚ) : 0 ≤ qabs q := by
  unfold qabs
  split <;> linarith

/-- Every accepted candidate of the shrinkage loop has its log-density above
the slice height, and the cached log-density is exactly the value at the
accepted point. -/
theorem shrink_some (f : List ℚ → LFloat) (logy : LFloat) (x : List ℚ)
    (d : ℕ) (xp : ℚ) (rd : ℕ → ℚ) :
    ∀ (fuel : ℕ) (a b : ℚ) (k evals : ℕ) (s : ShrinkOut),
      shrink f logy x d xp rd fuel a b k evals = some s →
      s.prob = f (x.set d s.cand) ∧ s.prob.gt logy = true := by
  intro fuel
  induction fuel with
  | zero =>
    intro a b k evals s h
    simp [shrink] at h
  | succ n ih =>
    intro a b k evals s h
    simp only [shrink] at h
    split at h
    · cases h
      exact ⟨rfl, by assumption⟩
    · split at h
      · exact ih _ _ _ _ _ h
      · exact ih _ _ _ _ _ h

/-- An elementary step that terminates yields a state obtained from the
previous one by setting coordinate `d` to the accepted candidate, caches the
log-density at that state, and that log-density is above the slice height
drawn at the start of the step. -/
theorem elemStep_some (f : List ℚ → LFloat) (rd : ℕ → ℚ) (width : ℚ)
    (d : ℕ) (fuel : ℕ) (x : List ℚ) (xProb : LFloat) (k : ℕ) (r : ElemOut)
    (h : elemStep f rd width d fuel x xProb k = some r) :
    r.xProb = f r.x ∧ (f r.x).gt (sliceHeight xProb (rd k)) = true ∧
    ∃ c : ℚ, r.x = x.set d c := by
  simp only [elemStep] at h
  split at h
  · cases h
  · split at h
    · cases h
    · split at h
      · cases h
      · cases h
        rename_i s hs
        obtain ⟨h1, h2⟩ := shrink_some f _ x d _ rd fuel _ _ _ _ s hs
        refine ⟨h1, ?_, s.cand, rfl⟩
        rw [← h1]
        exact h2

/-- One generator pull: never touches the widths, yields exactly the new
internal state, preserves the dimension, changes at most the coordinate at
the cursor, and accepts only above the slice height of the step. -/
theorem samplePull_some (f : List ℚ → LFloat) (rd : ℕ → ℚ) (fuel : ℕ)
    (g : GenState) (r : PullOut) (h : samplePull f rd fuel g = some r) :
    r.g.ws = g.ws ∧ r.cur = r.g.x ∧ r.g.x.length = g.x.length ∧
    (∀ j, j ≠ g.d → r.g.x.getD j 0 = g.x.getD j 0) ∧
    r.g.xProb = f r.cur ∧
    (f r.cur).gt (sliceHeight g.xProb (rd g.k)) = true := by
  simp only [samplePull] at h
  split at h
  · cases h
  · split at h
    · cases h
    · cases h
      rename_i e he
      obtain ⟨h1, h2, c, hc⟩ := elemStep_some f rd _ g.d fuel g.x g.xProb g.k e he
      refine ⟨rfl, rfl, ?_, ?_, h1, h2⟩
      · rw [hc, List.length_set]
      · intro j hj
        rw [hc, getD_set_of_ne g.x g.d j c (fun hdj => hj hdj.symm)]

/-- The emission loop never touches the widths, preserves the dimension of
the state, yields exactly `n` snapshots of the state's dimension, and
consumes exactly `n` generator pulls. -/
theorem emitPhase_some (f : List ℚ → LFloat) (rd : ℕ → ℚ) (fuel : ℕ) :
    ∀ (n : ℕ) (g : GenState) (evals pulls : ℕ) (e : EmitOut),
      emitPhase f rd fuel n g evals pulls = some e →
      e.g.ws = g.ws ∧ e.g.x.length = g.x.length ∧ e.outs.length = n ∧
      e.pulls = pulls + n ∧ ∀ row ∈ e.outs, row.length = g.x.length := by
  intro n
  induction n with
  | zero =>
    intro g evals pulls e h
    cases h
    simp
  | succ m ih =>
    intro g evals pulls e h
    simp only [emitPhase] at h
    split at h
    · cases h
    · rename_i r hr
      split at h
      · cases h
      · cases h
        rename_i e2 he2
        obtain ⟨p1, p2, p3, _, _, _⟩ := samplePull_some f rd fuel g r hr
        obtain ⟨q1, q2, q3, q4, q5⟩ := ih r.g _ _ e2 he2
        refine ⟨by rw [q1, p1], by rw [q2, p3], by simp [q3],
          by show e2.pulls = pulls + (m + 1); omega, ?_⟩
        intro row hrow
        rcases List.mem_cons.mp hrow with h | h
        · rw [h, p2, p3]
        · rw [q5 row h, p3]

/-- The EMA width update keeps strictly positive widths strictly positive,
for any non-negative delta. -/
theorem emaUpdate_pos (ws : List ℚ) (d : ℕ) (delta : ℚ) (hd : 0 ≤ delta)
    (hws : ∀ q ∈ ws, 0 < q) : ∀ q ∈ emaUpdate ws d delta, 0 < q := by
  intro q hq
  by_cases hlt : d < ws.length
  · rcases List.mem_or_eq_of_mem_set hq with h | h
    · exact hws q h
    · have hmem : ws.getD d 0 ∈ ws := by
        rw [List.getD_eq_getElem?_getD, List.getElem?_eq_getElem hlt,
          Option.getD_some]
        exact List.getElem_mem hlt
      have hw := hws _ hmem
      subst h
      linarith
  · unfold emaUpdate at hq
    rw [List.set_eq_of_length_le (le_of_not_lt hlt)] at hq
    exact hws q hq

/-- One tuning sweep preserves the dimension of the state, consumes one
generator pull per listed dimension, and keeps positive widths positive. -/
theorem tuneSweep_some (f : List ℚ → LFloat) (rd : ℕ → ℚ) (fuel : ℕ) :
    ∀ (ds : List ℕ) (prev : List ℚ) (g : GenState) (evals pulls : ℕ)
      (t : TuneOut),
      tuneSweep f rd fuel ds prev g evals pulls = some t →
      t.g.x.length = g.x.length ∧ t.pulls = pulls + ds.length ∧
      ((∀ q ∈ g.ws, 0 < q) → ∀ q ∈ t.g.ws, 0 < q) := by
  intro ds
  induction ds with
  | nil =>
    intro prev g evals pulls t h
    cases h
    simp
  | cons d rest ih =>
    intro prev g evals pulls t h
    simp only [tuneSweep] at h
    split at h
    · cases h
    · rename_i r hr
      obtain ⟨p1, _, p3, _, _, _⟩ := samplePull_some f rd fuel g r hr
      obtain ⟨q1, q2, q3⟩ := ih _ _ _ _ _ h
      refine ⟨by rw [q1]; exact p3, by rw [q2]; simp [List.length_cons]; omega, ?_⟩
      intro hg
      apply q3
      show ∀ q ∈ emaUpdate r.g.ws d _, 0 < q
      apply emaUpdate_pos _ _ _ (qabs_nonneg _)
      rw [p1]
      exact hg

/-- The full tuning phase preserves the dimension of the state, consumes
exactly `sweeps * D` generator pulls, and keeps positive widths positive. -/
theorem tunePhase_some (f : List ℚ → LFloat) (rd : ℕ → ℚ) (fuel : ℕ) (D : ℕ) :
    ∀ (sweeps : ℕ) (prev : List ℚ) (g : GenState) (evals pulls : ℕ)
      (t : TuneOut),
      tunePhase f rd fuel D sweeps prev g evals pulls = some t →
      t.g.x.length = g.x.length ∧ t.pulls = pulls + sweeps * D ∧
      ((∀ q ∈ g.ws, 0 < q) → ∀ q ∈ t.g.ws, 0 < q) := by
  intro sweeps
  induction sweeps with
  | zero =>
    intro prev g evals pulls t h
    cases h
    simp
  | succ m ih =>
    intro prev g evals pulls t h
    simp only [tunePhase] at h
    split at h
    · cases h
    · rename_i r hr
      obtain ⟨p1, p2, p3⟩ := tuneSweep_some f rd fuel _ _ _ _ _ _ hr
      obtain ⟨q1, q2, q3⟩ := ih _ _ _ _ _ h
      refine ⟨q1.trans p1, ?_, fun hg => q3 (p3 hg)⟩
      rw [q2, p2, List.length_range]
      ring

/-! ### Claims -/

/-- C1: every state emitted by the sampling sequence has its log-density
strictly above (in the float `>` sense) the slice height `logy` computed at
the start of the elementary step that produced it, and the emitted snapshot
is exactly the accepted internal state. -/
theorem emitted_state_above_slice_height (f : List ℚ → LFloat) (rd : ℕ → ℚ)
    (fuel : ℕ) (g : GenState) (r : PullOut)
    (h : samplePull f rd fuel g = some r) :
    (f r.cur).gt (sliceHeight g.xProb (rd g.k)) = true ∧ r.cur = r.g.x := by
  obtain ⟨_, h2, _, _, _, h6⟩ := samplePull_some f rd fuel g r h
  exact ⟨h6, h2⟩

/-- Witness for C1 at a concrete pull of the bounded-support density. -/
theorem emitted_state_above_slice_height_w :
    (fW [-1 / 2]).gt (sliceHeight (LFloat.flt 0) (rdW 0)) = true ∧
      ([-1 / 2] : List ℚ) = [-1 / 2] := by
  have h : samplePull fW rdW 5 ⟨[1], [0], .flt 0, 0, 0⟩ =
      some ⟨[-1 / 2], ⟨[1], [-1 / 2], .flt 0, 0, 3⟩, 5⟩ := by
    with_unfolding_all decide
  exact emitted_state_above_slice_height fW rdW 5 ⟨[1], [0], .flt 0, 0, 0⟩
    ⟨[-1 / 2], ⟨[1], [-1 / 2], .flt 0, 0, 3⟩, 5⟩ h

/-- C2: the slice height of an elementary step is
`logy = cachedLogDensity − e − 1e-9`, and the initial trial interval
`a = x[d] − u·width`, `b = a + width` has length `width` and randomly covers
the current coordinate (`a ≤ x[d] < b` whenever `u ∈ [0, 1)` and the width
is positive).  `sliceHeight`, `intervalA` and `intervalB` are exactly the
quantities computed at the start of `elemStep`. -/
theorem slice_height_and_trial_interval (xd u width e xp : ℚ)
    (h0 : 0 ≤ u) (h1 : u < 1) (hw : 0 < width) :
    sliceHeight (.flt xp) e = .flt (xp - e - 1 / 1000000000) ∧
    intervalA xd u width = xd - u * width ∧
    intervalB xd u width = intervalA xd u width + width ∧
    intervalB xd u width - intervalA xd u width = width ∧
    intervalA xd u width ≤ xd ∧ xd < intervalB xd u width := by
  refine ⟨by simp [sliceHeight, LFloat.subQ]; ring, rfl, rfl,
    by simp [intervalB], ?_, ?_⟩
  · have := mul_nonneg h0 hw.le
    simp only [intervalA]
    linarith
  · have h2 : 0 < (1 - u) * width := mul_pos (by linarith) hw
    simp only [intervalA, intervalB]
    nlinarith

/-- Witness for C2 at `x[d] = 0`, `u = 1/2`, `width = 1`, `e = 1/2`. -/
theorem slice_height_and_trial_interval_w :
    sliceHeight (.flt 0) (1 / 2) = .flt (0 - 1 / 2 - 1 / 1000000000) ∧
    intervalA 0 (1 / 2) 1 = 0 - 1 / 2 * 1 ∧
    intervalB 0 (1 / 2) 1 = intervalA 0 (1 / 2) 1 + 1 ∧
    intervalB 0 (1 / 2) 1 - intervalA 0 (1 / 2) 1 = 1 ∧
    intervalA 0 (1 / 2) 1 ≤ 0 ∧ (0 : ℚ) < intervalB 0 (1 / 2) 1 :=
  slice_height_and_trial_interval 0 (1 / 2) 1 (1 / 2) 0
    (by norm_num) (by norm_num) (by norm_num)

/-- C3 counterexample: a call with a negative `ntune` (an invalid
configuration under the claim) does not fail fast with any error: the
sampler silently skips tuning, evaluates the log-density six times, and
returns a sample.  The repository defines no `InvalidConfiguration` error
and `run`/`sample` perform no argument validation at call time. -/
theorem invalid_configuration_not_rejected :
    run ⟨some [1], -1⟩ fW [0] 1 rdW 5 =
      some ⟨[[-1 / 2]], ⟨some [1], -1⟩, 6, 0, 1⟩ := by
  with_unfolding_all decide

/-- C3 amended: no configuration validation exists; in particular a negative
`ntune` is silently treated like `ntune = 0` (Python's
`if self.ntune > 0` skips the tuning loop), producing the same samples,
final widths, evaluation count and pull counts as `ntune = 0` instead of an
`InvalidConfiguration` error. -/
theorem negative_ntune_acts_as_zero (w : Option (List ℚ)) (t : ℤ)
    (ht : t < 0) (f : List ℚ → LFloat) (init : List ℚ) (rd : ℕ → ℚ)
    (fuel nsteps : ℕ) :
    (ComponentWiseSlice.sample ⟨w, t⟩ f init rd fuel nsteps).map
      (fun r => (r.samples, r.sampler.widths, r.evals, r.tunePulls,
        r.emitPulls)) =
    (ComponentWiseSlice.sample ⟨w, 0⟩ f init rd fuel nsteps).map
      (fun r => (r.samples, r.sampler.widths, r.evals, r.tunePulls,
        r.emitPulls)) := by
  have h0 : t.toNat = 0 := Int.toNat_eq_zero.mpr ht.le
  unfold ComponentWiseSlice.sample
  simp only [h0, Int.toNat_zero]
  split
  · rfl
  · cases htp : tunePhase f rd fuel init.length 0 init
      ⟨resolveWidths w init.length, init, f init, 0, 0⟩ 1 0 with
    | none => rfl
    | some t' =>
      cases hep : emitPhase f rd fuel nsteps t'.g 0 0 with
      | none => simp [hep]
      | some e => simp [hep]

/-- Witness for the amended C3 at `ntune = -1` on the bounded-support
density. -/
theorem negative_ntune_acts_as_zero_w :
    (ComponentWiseSlice.sample ⟨some [1], -1⟩ fW [0] rdW 5 1).map
      (fun r => (r.samples, r.sampler.widths, r.evals, r.tunePulls,
        r.emitPulls)) =
    (ComponentWiseSlice.sample ⟨some [1], 0⟩ fW [0] rdW 5 1).map
      (fun r => (r.samples, r.sampler.widths, r.evals, r.tunePulls,
        r.emitPulls)) :=
  negative_ntune_acts_as_zero (some [1]) (-1) (by norm_num) fW [0] rdW 5 1

/-- C4: the width vector is mutated only during the tuning phase.
(i) The emission loop never changes the widths (they are frozen once real
sampling starts).  (ii) When at least one sample is requested, tuning
consumes exactly `ntune·len(init)` elementary steps before emission begins,
so none of those states is returned to the caller.  (iii) With `ntune = 0`
the instance widths after the run are exactly the configured/default
widths. -/
theorem widths_mutated_only_during_tuning :
    (∀ (f : List ℚ → LFloat) (rd : ℕ → ℚ) (fuel n : ℕ) (g : GenState)
      (evals pulls : ℕ) (e : EmitOut),
      emitPhase f rd fuel n g evals pulls = some e → e.g.ws = g.ws) ∧
    (∀ (s : ComponentWiseSlice) (f : List ℚ → LFloat) (init : List ℚ)
      (rd : ℕ → ℚ) (fuel nsteps : ℕ) (r : RunOut), nsteps ≠ 0 →
      run s f init nsteps rd fuel = some r →
      r.tunePulls = s.ntune.toNat * init.length) ∧
    (∀ (s : ComponentWiseSlice) (f : List ℚ → LFloat) (init : List ℚ)
      (rd : ℕ → ℚ) (fuel nsteps : ℕ) (r : RunOut), s.ntune = 0 →
      run s f init nsteps rd fuel = some r →
      r.sampler.widths = some (resolveWidths s.widths init.length) ∨
        (nsteps = 0 ∧ r.sampler = s)) := by
  refine ⟨?_, ?_, ?_⟩
  · intro f rd fuel n g evals pulls e h
    exact (emitPhase_some f rd fuel n g evals pulls e h).1
  · intro s f init rd fuel nsteps r hn h
    unfold run ComponentWiseSlice.sample at h
    rw [if_neg hn] at h
    dsimp only at h
    split at h
    · cases h
    · rename_i t ht
      split at h
      · cases h
      · cases h
        obtain ⟨-, hp, -⟩ :=
          tunePhase_some f rd fuel init.length s.ntune.toNat init _ 1 0 t ht
        simpa using hp
  · intro s f init rd fuel nsteps r h0 h
    unfold run ComponentWiseSlice.sample at h
    by_cases hn : nsteps = 0
    · rw [if_pos hn] at h
      cases h
      exact Or.inr ⟨hn, rfl⟩
    · rw [if_neg hn] at h
      dsimp only at h
      split at h
      · cases h
      · rename_i t ht
        split at h
        · cases h
        · rename_i e he
          cases h
          left
          rw [h0] at ht
          have ht' :
              t = ⟨init, ⟨resolveWidths s.widths init.length, init, f init,
                0, 0⟩, 1, 0⟩ := by
            have := ht
            simp only [Int.toNat_zero, tunePhase, Option.some.injEq] at this
            exact this.symm
          obtain ⟨hw, -, -, -, -⟩ :=
            emitPhase_some f rd fuel nsteps t.g 0 0 e he
          show some e.g.ws = some (resolveWidths s.widths init.length)
          rw [hw, ht']

set_option maxRecDepth 8192 in
/-- Witness for C4: a concrete emission run leaves widths `[1, 1]` unchanged,
a concrete `ntune = 2` run on a 1-dimensional target consumes `2·1` tuning
pulls, and a concrete `ntune = 0` run ends with the default widths. -/
theorem widths_mutated_only_during_tuning_w :
    ([1, 1] : List ℚ) = [1, 1] ∧
    (2 : ℕ) = (2 : ℤ).toNat * [(0 : ℚ)].length ∧
    (some ([1, 1] : List ℚ) = some (resolveWidths none [(0 : ℚ), 0].length) ∨
      (5 = 0 ∧ (⟨some [1, 1], 0⟩ : ComponentWiseSlice) = ⟨none, 0⟩)) := by
  obtain ⟨c1, c2, c3⟩ := widths_mutated_only_during_tuning
  refine ⟨?_, ?_, ?_⟩
  · have h : emitPhase fN rdW 10 5 ⟨[1, 1], [0, 0], .flt 0, 0, 0⟩ 0 0 =
        some ⟨[[-1 / 2, 0], [-1 / 2, -1 / 2], [-2 / 3, -1 / 2],
          [-2 / 3, -2 / 3], [-5 / 6, -2 / 3]],
          ⟨[1, 1], [-5 / 6, -2 / 3], .flt (-41 / 72), 1, 15⟩, 28, 5⟩ := by
      with_unfolding_all decide
    exact c1 fN rdW 10 5 ⟨[1, 1], [0, 0], .flt 0, 0, 0⟩ 0 0
      ⟨[[-1 / 2, 0], [-1 / 2, -1 / 2], [-2 / 3, -1 / 2],
        [-2 / 3, -2 / 3], [-5 / 6, -2 / 3]],
        ⟨[1, 1], [-5 / 6, -2 / 3], .flt (-41 / 72), 1, 15⟩, 28, 5⟩ h
  · have h : run ⟨some [1], 2⟩ fW [0] 1 rdW 10 =
        some ⟨[[-107 / 480]], ⟨some [209 / 240], 2⟩, 17, 2, 1⟩ := by
      with_unfolding_all decide
    exact c2 ⟨some [1], 2⟩ fW [0] rdW 10 1
      ⟨[[-107 / 480]], ⟨some [209 / 240], 2⟩, 17, 2, 1⟩ one_ne_zero h
  · have h : run ⟨none, 0⟩ fN [0, 0] 5 rdW 10 =
        some ⟨[[-1 / 2, 0], [-1 / 2, -1 / 2], [-2 / 3, -1 / 2],
          [-2 / 3, -2 / 3], [-5 / 6, -2 / 3]], ⟨some [1, 1], 0⟩, 29, 0, 5⟩ := by
      with_unfolding_all decide
    exact c3 ⟨none, 0⟩ fN [0, 0] rdW 10 5
      ⟨[[-1 / 2, 0], [-1 / 2, -1 / 2], [-2 / 3, -1 / 2],
        [-2 / 3, -2 / 3], [-5 / 6, -2 / 3]], ⟨some [1, 1], 0⟩, 29, 0, 5⟩ rfl h

/-- C5: the driver pulls exactly `nsteps` elements from the sampler's
sequence — never fewer, never more — and returns exactly those states as
rows, each of length `len(init)`; `nsteps = 0` yields empty output with no
log-density evaluation at all (the generator is never started). -/
theorem run_pulls_exactly_nsteps :
    (∀ (s : ComponentWiseSlice) (f : List ℚ → LFloat) (init : List ℚ)
      (rd : ℕ → ℚ) (fuel nsteps : ℕ) (r : RunOut),
      run s f init nsteps rd fuel = some r →
      r.samples.length = nsteps ∧ r.emitPulls = nsteps ∧
      ∀ row ∈ r.samples, row.length = init.length) ∧
    (∀ (s : ComponentWiseSlice) (f : List ℚ → LFloat) (init : List ℚ)
      (rd : ℕ → ℚ) (fuel : ℕ),
      run s f init 0 rd fuel = some ⟨[], s, 0, 0, 0⟩) := by
  constructor
  · intro s f init rd fuel nsteps r h
    unfold run ComponentWiseSlice.sample at h
    by_cases hn : nsteps = 0
    · subst hn
      rw [if_pos rfl] at h
      cases h
      simp
    · rw [if_neg hn] at h
      dsimp only at h
      split at h
      · cases h
      · rename_i t ht
        split at h
        · cases h
        · rename_i e he
          cases h
          obtain ⟨htx, -, -⟩ :=
            tunePhase_some f rd fuel init.length s.ntune.toNat init _ 1 0 t ht
          obtain ⟨-, -, hlen, hp, hrows⟩ :=
            emitPhase_some f rd fuel nsteps t.g 0 0 e he
          refine ⟨hlen, by simpa using hp, ?_⟩
          intro row hrow
          rw [hrows row hrow, htx]
  · intro s f init rd fuel
    unfold run ComponentWiseSlice.sample
    simp

/-- Witness for C5 on the 2-dimensional standard-normal run: 5 requested
samples give 5 rows of length 2, and the `nsteps = 0` call is empty. -/
theorem run_pulls_exactly_nsteps_w :
    (([[-1 / 2, 0], [-1 / 2, -1 / 2], [-2 / 3, -1 / 2], [-2 / 3, -2 / 3],
        [-5 / 6, -2 / 3]] : List (List ℚ)).length = 5 ∧ (5 : ℕ) = 5 ∧
      ∀ row ∈ ([[-1 / 2, 0], [-1 / 2, -1 / 2], [-2 / 3, -1 / 2],
        [-2 / 3, -2 / 3], [-5 / 6, -2 / 3]] : List (List ℚ)),
        row.length = [(0 : ℚ), 0].length) ∧
    run ⟨none, 0⟩ fN [0, 0] 0 rdW 10 = some ⟨[], ⟨none, 0⟩, 0, 0, 0⟩ := by
  constructor
  · have h : run ⟨none, 0⟩ fN [0, 0] 5 rdW 10 =
        some ⟨[[-1 / 2, 0], [-1 / 2, -1 / 2], [-2 / 3, -1 / 2],
          [-2 / 3, -2 / 3], [-5 / 6, -2 / 3]], ⟨some [1, 1], 0⟩, 29, 0, 5⟩ := by
      with_unfolding_all decide
    exact run_pulls_exactly_nsteps.1 ⟨none, 0⟩ fN [0, 0] rdW 10 5
      ⟨[[-1 / 2, 0], [-1 / 2, -1 / 2], [-2 / 3, -1 / 2],
        [-2 / 3, -2 / 3], [-5 / 6, -2 / 3]], ⟨some [1, 1], 0⟩, 29, 0, 5⟩ h
  · exact run_pulls_exactly_nsteps.2 ⟨none, 0⟩ fN [0, 0] rdW 10

/-- C6: a NaN or −infinity log-density compares false (float `>`) against
any slice height, so (i) both comparisons are false against every `logy`;
(ii) in a step-out loop such a point immediately terminates the expansion,
returning the current position exactly like an ordinary rejection; and
(iii) in the shrinkage loop such a candidate takes the ordinary rejection
path, shrinking the interval toward the side of the current point — no
special-casing of non-finite values anywhere. -/
theorem nonfinite_treated_as_rejection :
    (∀ logy : LFloat, LFloat.gt .nan logy = false ∧
      LFloat.gt .negInf logy = false) ∧
    (∀ (f : List ℚ → LFloat) (logy : LFloat) (x : List ℚ) (d : ℕ)
      (step : ℚ) (fuel : ℕ) (pos : ℚ) (evals : ℕ),
      (f (x.set d pos) = .nan ∨ f (x.set d pos) = .negInf) →
      stepOut f logy x d step (fuel + 1) pos evals = some (pos, evals + 1)) ∧
    (∀ (f : List ℚ → LFloat) (logy : LFloat) (x : List ℚ) (d : ℕ) (xp : ℚ)
      (rd : ℕ → ℚ) (fuel : ℕ) (a b : ℚ) (k evals : ℕ),
      (f (x.set d (a + rd k * (b - a))) = .nan ∨
        f (x.set d (a + rd k * (b - a))) = .negInf) →
      shrink f logy x d xp rd (fuel + 1) a b k evals =
        if a + rd k * (b - a) < xp then
          shrink f logy x d xp rd fuel (a + rd k * (b - a)) b (k + 1)
            (evals + 1)
        else
          shrink f logy x d xp rd fuel a (a + rd k * (b - a)) (k + 1)
            (evals + 1)) := by
  refine ⟨fun logy => ⟨rfl, rfl⟩, ?_, ?_⟩
  · intro f logy x d step fuel pos evals h
    rcases h with h | h <;> simp [stepOut, h, LFloat.gt]
  · intro f logy x d xp rd fuel a b k evals h
    rcases h with h | h <;> simp only [shrink, h] <;>
      simp [LFloat.gt]

/-- Witness for C6 at the NaN density `fNaN`, point `2` (outside the finite
region): the step-out loop stops at once and the shrinkage loop rejects. -/
theorem nonfinite_treated_as_rejection_w :
    stepOut fNaN (.flt 0) [0] 0 1 1 2 0 = some (2, 0 + 1) ∧
    shrink fNaN (.flt 0) [0] 0 0 rdW 1 2 2 0 0 =
      if 2 + rdW 0 * (2 - 2) < 0 then
        shrink fNaN (.flt 0) [0] 0 0 rdW 0 (2 + rdW 0 * (2 - 2)) 2 1 1
      else
        shrink fNaN (.flt 0) [0] 0 0 rdW 0 2 (2 + rdW 0 * (2 - 2)) 1 1 :=
  ⟨nonfinite_treated_as_rejection.2.1 fNaN (.flt 0) [0] 0 1 0 2 0
    (Or.inl (by with_unfolding_all decide)),
  nonfinite_treated_as_rejection.2.2 fNaN (.flt 0) [0] 0 0 rdW 0 2 2 0 0
    (Or.inl (by with_unfolding_all decide))⟩

/-- C7: for a strictly positive width vector, any finite sequence of EMA
tuning updates (each `widths[d] = 0.1·|delta| + 0.9·widths[d]`, arbitrary
finite deltas) keeps every width entry strictly positive; in particular the
whole tuning phase of a run preserves positivity of the widths. -/
theorem widths_stay_positive :
    (∀ (updates : List (ℕ × ℚ)) (ws : List ℚ), (∀ q ∈ ws, 0 < q) →
      ∀ q ∈ updates.foldl (fun w p => emaUpdate w p.1 (qabs p.2)) ws,
        0 < q) ∧
    (∀ (f : List ℚ → LFloat) (rd : ℕ → ℚ) (fuel D sweeps : ℕ)
      (prev : List ℚ) (g : GenState) (evals pulls : ℕ) (t : TuneOut),
      tunePhase f rd fuel D sweeps prev g evals pulls = some t →
      (∀ q ∈ g.ws, 0 < q) → ∀ q ∈ t.g.ws, 0 < q) := by
  constructor
  · intro updates
    induction updates with
    | nil =>
      intro ws h
      simpa using h
    | cons p rest ih =>
      intro ws h
      rw [List.foldl_cons]
      exact ih _ (emaUpdate_pos ws p.1 (qabs p.2) (qabs_nonneg p.2) h)
  · intro f rd fuel D sweeps prev g evals pulls t h hpos
    exact (tunePhase_some f rd fuel D sweeps prev g evals pulls t h).2.2 hpos

/-- Witness for C7: one concrete negative delta keeps `[1]` positive, and
the concrete two-sweep tuning run ends with positive widths `[209/240]`. -/
theorem widths_stay_positive_w :
    (∀ q ∈ [((0 : ℕ), (-3 : ℚ))].foldl
      (fun w p => emaUpdate w p.1 (qabs p.2)) [1], 0 < q) ∧
    ∀ q ∈ (([209 / 240] : List ℚ)), 0 < q := by
  constructor
  · exact widths_stay_positive.1 [((0 : ℕ), (-3 : ℚ))] [1]
      (by intro q hq; simp at hq; simp [hq])
  · have h : tunePhase fW rdW 10 1 2 [0] ⟨[1], [0], .flt 0, 0, 0⟩ 1 0 =
        some ⟨[-79 / 120], ⟨[209 / 240], [-79 / 120], .flt 0, 0, 6⟩, 12, 2⟩ := by
      with_unfolding_all decide
    exact widths_stay_positive.2 fW rdW 10 1 2 [0] ⟨[1], [0], .flt 0, 0, 0⟩ 1 0
      ⟨[-79 / 120], ⟨[209 / 240], [-79 / 120], .flt 0, 0, 6⟩, 12, 2⟩ h
      (by intro q hq; simp at hq; simp [hq])

/-- C8: every emitted snapshot has the length of the previous internal state
and agrees with it on every coordinate except (at most) the cursor
dimension just updated; and in the 2-dimensional standard-normal scenario
(`init = [0, 0]`, default widths, `ntune = 0`, `nsteps = 5`) the run
returns 5 rows of length 2 in which each row differs from the previous row
in exactly one coordinate. -/
theorem snapshot_differs_in_one_coordinate :
    (∀ (f : List ℚ → LFloat) (rd : ℕ → ℚ) (fuel : ℕ) (g : GenState)
      (r : PullOut), samplePull f rd fuel g = some r →
      r.cur.length = g.x.length ∧
      ∀ j, j ≠ g.d → r.cur.getD j 0 = g.x.getD j 0) ∧
    (∃ r : RunOut, run ⟨none, 0⟩ fN [0, 0] 5 rdW 10 = some r ∧
      r.samples.length = 5 ∧ (∀ row ∈ r.samples, row.length = 2) ∧
      pairwiseDiffOne r.samples = true) := by
  constructor
  · intro f rd fuel g r h
    obtain ⟨-, h2, h3, h4, -, -⟩ := samplePull_some f rd fuel g r h
    refine ⟨by rw [h2]; exact h3, fun j hj => by rw [h2]; exact h4 j hj⟩
  · refine ⟨⟨[[-1 / 2, 0], [-1 / 2, -1 / 2], [-2 / 3, -1 / 2],
      [-2 / 3, -2 / 3], [-5 / 6, -2 / 3]], ⟨some [1, 1], 0⟩, 29, 0, 5⟩,
      ?_, ?_, ?_, ?_⟩
    · with_unfolding_all decide
    · rfl
    · with_unfolding_all decide
    · with_unfolding_all decide

/-- Witness for C8 at a concrete 2-dimensional pull: the snapshot keeps
length 2 and agrees with the previous state away from coordinate 0. -/
theorem snapshot_differs_in_one_coordinate_w :
    ([-1 / 2, 0] : List ℚ).length = ([0, 0] : List ℚ).length ∧
    ∀ j, j ≠ 0 →
      ([-1 / 2, 0] : List ℚ).getD j 0 = ([0, 0] : List ℚ).getD j 0 := by
  have h : samplePull fN rdW 10 ⟨[1, 1], [0, 0], .flt 0, 0, 0⟩ =
      some ⟨[-1 / 2, 0], ⟨[1, 1], [-1 / 2, 0], .flt (-1 / 8), 1, 3⟩, 5⟩ := by
    with_unfolding_all decide
  exact snapshot_differs_in_one_coordinate.1 fN rdW 10
    ⟨[1, 1], [0, 0], .flt 0, 0, 0⟩
    ⟨[-1 / 2, 0], ⟨[1, 1], [-1 / 2, 0], .flt (-1 / 8), 1, 3⟩, 5⟩ h

/-- C9: two runs with identical sampler configuration, identical initial
vector, identical `nsteps`, and random sources producing identical draw
sequences produce identical outputs. -/
theorem run_deterministic (s : ComponentWiseSlice) (f : List ℚ → LFloat)
    (init : List ℚ) (nsteps fuel : ℕ) (rd1 rd2 : ℕ → ℚ)
    (h : ∀ k, rd1 k = rd2 k) :
    run s f init nsteps rd1 fuel = run s f init nsteps rd2 fuel := by
  rw [funext h]

/-- Witness for C9: two copies of the concrete seeded stream give the same
output. -/
theorem run_deterministic_w :
    run ⟨none, 0⟩ fN [0, 0] 5 rdW 10 = run ⟨none, 0⟩ fN [0, 0] 5 rdW 10 :=
  run_deterministic ⟨none, 0⟩ fN [0, 0] 5 10 rdW rdW fun _ => rfl

/-- A `sample` call with `ntune = 0` that consumes at least one element ends
with the instance widths equal to the resolved (configured or defaulted)
widths. -/
theorem sample_ntune_zero_final_widths (wopt : Option (List ℚ))
    (f : List ℚ → LFloat) (init : List ℚ) (rd : ℕ → ℚ) (fuel n : ℕ)
    (r : RunOut)
    (h : ComponentWiseSlice.sample ⟨wopt, 0⟩ f init rd fuel (n + 1) = some r) :
    r.sampler.widths = some (resolveWidths wopt init.length) := by
  unfold ComponentWiseSlice.sample at h
  rw [if_neg (Nat.succ_ne_zero n)] at h
  dsimp only at h
  split at h
  · cases h
  · rename_i t ht
    split at h
    · cases h
    · rename_i e he
      cases h
      have ht' : t = ⟨init, ⟨resolveWidths wopt init.length, init, f init,
          0, 0⟩, 1, 0⟩ := by
        have h2 := ht
        simp only [Int.toNat_zero, tunePhase, Option.some.injEq] at h2
        exact h2.symm
      obtain ⟨hw, -, -, -, -⟩ := emitPhase_some f rd fuel (n + 1) t.g 0 0 e he
      show some e.g.ws = some (resolveWidths wopt init.length)
      rw [hw, ht']

/-- C10: (i) a consumed first call on an instance constructed with
`widths = None` behaves exactly as if the widths had been the all-ones
vector of dimension `len(init)` — the defaulting happens before any
elementary step, and the dimension is taken from that call's `init`;
(ii) a call on an instance whose widths are already stored keeps the stored
vector (with `ntune = 0`) whatever its own `init` is — the default is not
re-derived on later calls; (iii) a call that consumes nothing leaves the
instance untouched (widths still `None`). -/
theorem default_widths_set_once :
    (∀ (nt : ℤ) (f : List ℚ → LFloat) (init : List ℚ) (rd : ℕ → ℚ)
      (fuel n : ℕ),
      ComponentWiseSlice.sample ⟨none, nt⟩ f init rd fuel (n + 1) =
        ComponentWiseSlice.sample ⟨some (List.replicate init.length 1), nt⟩
          f init rd fuel (n + 1)) ∧
    (∀ (w : List ℚ) (f : List ℚ → LFloat) (init : List ℚ) (rd : ℕ → ℚ)
      (fuel n : ℕ) (r : RunOut),
      ComponentWiseSlice.sample ⟨some w, 0⟩ f init rd fuel (n + 1) = some r →
      r.sampler.widths = some w) ∧
    (∀ (s : ComponentWiseSlice) (f : List ℚ → LFloat) (init : List ℚ)
      (rd : ℕ → ℚ) (fuel : ℕ),
      ComponentWiseSlice.sample s f init rd fuel 0 = some ⟨[], s, 0, 0, 0⟩) := by
  refine ⟨?_, ?_, ?_⟩
  · intro nt f init rd fuel n
    unfold ComponentWiseSlice.sample
    rw [if_neg (Nat.succ_ne_zero n), if_neg (Nat.succ_ne_zero n)]
    rfl
  · intro w f init rd fuel n r h
    exact sample_ntune_zero_final_widths (some w) f init rd fuel n r h
  · intro s f init rd fuel
    unfold ComponentWiseSlice.sample
    simp

/-- Witness for C10 at a concrete second call with stored widths `[1]`. -/
theorem default_widths_set_once_w :
    some ([1] : List ℚ) = some [1] := by
  have h : ComponentWiseSlice.sample ⟨some [1], 0⟩ fW [0] rdW 5 1 =
      some ⟨[[-1 / 2]], ⟨some [1], 0⟩, 6, 0, 1⟩ := by
    with_unfolding_all decide
  exact default_widths_set_once.2.1 [1] fW [0] rdW 5 0
    ⟨[[-1 / 2]], ⟨some [1], 0⟩, 6, 0, 1⟩ h
